import Mathlib

/-!
Shallow embedding of the retrieval-and-self-improving-index subsystem of
`backend/main.py` (a FastAPI retrieval-augmented QA service).

Modelling choices, stated once:

* Python strings are modelled as `List Char`; string literals are written
  `"...".toList`.
* The embedding model and the FAISS nearest-neighbor search are external
  black-box collaborators (per the specification).  Vectors live in an
  arbitrary type `V` with an arbitrary `embed : List Char → V`; the ids
  returned by `index.search` are supplied to `ask` as an oracle argument
  `searchIds : List Int` (the caller obligation `|searchIds| ≤ k` mirrors the
  collaborator contract "returns up to k neighbors").
* File I/O is fallible: each operation that writes a file takes a `writeOk`
  flag; `writeOk = false` models the `open/write` call raising `Exception`.
* Parsed JSON is modelled by the inductive `JVal`; the durable feedback file
  is `FeedbackFile` (absent, unparsable, or parsed content).
* The mutable module-level state (`documents`, the FAISS index, the manual
  file, the feedback file) is gathered in `KBState`.
-/

namespace TechChatbot

/-- Whitespace predicate used by Python's `str.strip()` (ASCII whitespace:
space, tab, newline, carriage return, vertical tab, form feed). -/
def isWS (c : Char) : Bool :=
  c = ' ' || c = '\t' || c = '\n' || c = '\r' || c = '\x0b' || c = '\x0c'

/-- Drop leading whitespace (Python `str.lstrip()`). -/
def trimLeft (l : List Char) : List Char := l.dropWhile isWS

/-- Drop trailing whitespace (Python `str.rstrip()`). -/
def trimRight (l : List Char) : List Char := (trimLeft l.reverse).reverse

/-- Model of Python `str.strip()`. -/
def pyStrip (l : List Char) : List Char := trimRight (trimLeft l)

/-- Model of Python `str.lower()` (the keyword comparisons in `metrics` only
involve ASCII text). -/
def pyLower (l : List Char) : List Char := l.map Char.toLower

/-- Model of Python `sep.join(xs)`: `pyJoin sep [] = ""`,
`pyJoin sep (x :: xs) = x ++ sep ++ ... `. -/
def joinRest (sep : List Char) : List (List Char) → List Char
  | [] => []
  | x :: xs => sep ++ x ++ joinRest sep xs

/-- Model of Python `sep.join(xs)`. -/
def pyJoin (sep : List Char) : List (List Char) → List Char
  | [] => []
  | x :: xs => x ++ joinRest sep xs

/-- Split a character stream at newline characters, the way a text file's
content decomposes into physical lines (`f.readlines()` up to the retained
terminators, which the subsequent `strip` removes anyway). -/
def splitLines : List Char → List (List Char)
  | [] => [[]]
  | c :: rest =>
    if c = '\n' then [] :: splitLines rest
    else
      match splitLines rest with
      | [] => [[c]]
      | h :: t => (c :: h) :: t

/-- Model of the module-level knowledge-base load (`main.py` lines 73-77):
`[line.strip() for line in f.readlines() if line.strip()]`. -/
def loadManual (file : List Char) : List (List Char) :=
  ((splitLines file).map pyStrip).filter (fun l => !l.isEmpty)

/-- List-prefix test by character equality. -/
def startsWith : List Char → List Char → Bool
  | [], _ => true
  | _ :: _, [] => false
  | c :: cs, d :: ds => c == d && startsWith cs ds

/-- Model of Python's substring test `needle in hay`. -/
def pyInStr (needle : List Char) : List Char → Bool
  | [] => needle.isEmpty
  | c :: rest => startsWith needle (c :: rest) || pyInStr needle rest

/-- Parsed JSON values, the result of a successful `json.load`. -/
inductive JVal : Type where
  | jnull : JVal
  | jbool : Bool → JVal
  | jnum : Int → JVal
  | jstr : List Char → JVal
  | jarr : List JVal → JVal
  | jobj : List (List Char × JVal) → JVal

/-- Python truthiness of a parsed JSON value (`bool(x)`). -/
def truthy : JVal → Bool
  | .jnull => false
  | .jbool b => b
  | .jnum n => n != 0
  | .jstr s => !s.isEmpty
  | .jarr xs => !xs.isEmpty
  | .jobj kvs => !kvs.isEmpty

/-- Model of Python `dict.get(key)`: `None` (here `jnull`) when absent. -/
def jget (kvs : List (List Char × JVal)) (key : List Char) : JVal :=
  match kvs.find? (fun kv => kv.1 == key) with
  | some kv => kv.2
  | none => .jnull

/-- Durable state of `feedback.json`: missing file, unparsable content, or
content that `json.load` parses to a `JVal`. -/
inductive FeedbackFile : Type where
  | absent : FeedbackFile
  | corrupt : FeedbackFile
  | parsed : JVal → FeedbackFile

/-- The shared mutable state of the service: the in-memory `documents` list,
the FAISS index (as its ordered vector sequence over an abstract vector type
`V`), the content of `kb/manual.txt`, and the state of `feedback.json`. -/
structure KBState (V : Type) where
  documents : List (List Char)
  index : List V
  manual : List Char
  feedback : FeedbackFile

/-- Model of `_index_texts` (lines 53-58): no-op on an empty batch, otherwise
encode every text and append the vectors to the index in order. -/
def index_texts {V : Type} (embed : List Char → V) (idx : List V)
    (texts : List (List Char)) : List V :=
  if texts.isEmpty then idx else idx ++ texts.map embed

/-- Model of `_append_to_manual_and_index` (lines 60-71): strip the text;
empty result fails; then append `"\n" + text + "\n"` to the manual file
(failure of the write fails the whole operation, leaving memory untouched);
only then update `documents` and the index.  In this sequential embedding the
write-before-memory ordering shows up as: a failed write (`writeOk = false`)
leaves `documents` and `index` unchanged. -/
def append_to_manual_and_index {V : Type} (embed : List Char → V)
    (st : KBState V) (text : List Char) (writeOk : Bool) : KBState V × Bool :=
  let t := pyStrip text
  if t.isEmpty then (st, false)
  else if !writeOk then (st, false)
  else
    ({ st with
        manual := st.manual ++ '\n' :: (t ++ ['\n']),
        documents := st.documents ++ [t],
        index := index_texts embed st.index [t] }, true)

/-- Result of the `/ask` endpoint. -/
structure AskResult where
  answer : List Char
  sources : List (List Char)
deriving DecidableEq

/-- The placeholder source label used by `/ask` when nothing was retrieved but
the Gemini call succeeded. -/
def geminiMarker : List Char := "gemini-generated".toList

/-- Model of `retrieved_docs` (line 140):
`[documents[i] for i in I[0] if i >= 0 and i < len(documents)]`. -/
def retrieveDocs (docs : List (List Char)) (ids : List Int) : List (List Char) :=
  ids.filterMap (fun i =>
    if 0 ≤ i ∧ i < (docs.length : Int) then docs.get? i.toNat else none)

/-- Model of `kb_context` (line 142): `" | ".join(retrieved_docs)` when
`retrieved_docs` is non-empty, otherwise `""`. -/
def kbContextOf (retrieved : List (List Char)) : List Char :=
  if retrieved.isEmpty then [] else pyJoin " | ".toList retrieved

/-- Model of the KB-only synthesis (lines 163-168). -/
def fallbackAnswer (kbContext : List Char) : List Char :=
  if kbContext.isEmpty then
    "No relevant info found in the manual and the model is unavailable.".toList
  else "Based on the manual: ".toList ++ kbContext

/-- Model of the fused-answer computation (lines 144-168).  `apiKey` is the
truthiness of `GEMINI_API_KEY`; `gemini = none` models
`model.generate_content` raising (setting `gemini_error`), `gemini = some s`
models it returning text `s`, which the code strips; an empty stripped result
falls back to KB-only synthesis. -/
def fusedAnswer (kbContext : List Char) (apiKey : Bool)
    (gemini : Option (List Char)) : List Char :=
  match (if apiKey then gemini.map pyStrip else none) with
  | some t => if t.isEmpty then fallbackAnswer kbContext else t
  | none => fallbackAnswer kbContext

/-- Model of the `sources` field of `/ask` (line 173):
`retrieved_docs if retrieved_docs else (["gemini-generated"] if GEMINI_API_KEY
and not gemini_error else [])`.  With `gemini_error = apiKey && gemini.isNone`,
the guard `GEMINI_API_KEY and not gemini_error` equals
`apiKey && gemini.isSome`. -/
def askSources (retrieved : List (List Char)) (apiKey : Bool)
    (gemini : Option (List Char)) : List (List Char) :=
  if retrieved.isEmpty then
    if apiKey && gemini.isSome then [geminiMarker] else []
  else retrieved

/-- Model of the `/ask` endpoint (lines 132-173).  The question's embedding
and the FAISS search are external capabilities; `searchIds` is the id row
`I[0]` they return (the collaborator contract bounds its length by
`k = min(3, len(documents))`).  The fused answer is persisted through
`_append_to_manual_and_index`, whose boolean result the code ignores. -/
def ask {V : Type} (embed : List Char → V) (st : KBState V)
    (question : List Char) (searchIds : List Int) (apiKey : Bool)
    (gemini : Option (List Char)) (writeOk : Bool) : KBState V × AskResult :=
  if st.documents.isEmpty then
    (st, ⟨"Knowledge base is empty.".toList, []⟩)
  else
    let retrieved := retrieveDocs st.documents searchIds
    let ans := fusedAnswer (kbContextOf retrieved) apiKey gemini
    ((append_to_manual_and_index embed st ans writeOk).1,
      ⟨ans, askSources retrieved apiKey gemini⟩)

/-- The list of feedback items inside a parsed JSON value: the elements when
it is a list, nothing otherwise (`if not isinstance(feedback_items, list):
feedback_items = []`). -/
def jitems : JVal → List JVal
  | .jarr xs => xs
  | _ => []

/-- Items of the feedback log as every reader of `feedback.json` obtains
them: empty when the file is missing, unparsable, or parses to a non-list. -/
def readFeedbackItems (fb : FeedbackFile) : List JVal :=
  match fb with
  | .absent => []
  | .corrupt => []
  | .parsed v => jitems v

/-- Model of the `/feedback` endpoint (lines 175-192): read the current log
tolerantly, append the new record, rewrite the whole file.  The code does not
catch a failure of the rewriting `json.dump`; a failed write (`writeOk =
false`) leaves the file in an undefined partially-written state, modelled as
`corrupt`.  The in-memory `documents` and index are never touched. -/
def feedbackOp {V : Type} (st : KBState V) (rec : JVal) (writeOk : Bool) :
    KBState V × Bool :=
  let items := readFeedbackItems st.feedback
  if writeOk then
    ({ st with feedback := .parsed (.jarr (items ++ [rec])) }, true)
  else
    ({ st with feedback := .corrupt }, false)

/-- Model of `(item or {}).get("correction")` (line 211): a falsy item is
replaced by the empty dict; `.get` on a truthy non-dict raises
`AttributeError`, modelled as `Except.error`. -/
def getCorrectionValue (item : JVal) : Except Unit JVal :=
  match (if truthy item then item else .jobj []) with
  | .jobj kvs => .ok (jget kvs "correction".toList)
  | _ => .error ()

/-- Model of the correction-extraction loop of `/reindex` (lines 209-215):
keep the stripped value of each `correction` field that is a string and is
non-empty after stripping; an `AttributeError` anywhere aborts the whole
request. -/
def extractCorrections : List JVal → Except Unit (List (List Char))
  | [] => .ok []
  | item :: rest => do
    let v ← getCorrectionValue item
    let tail ← extractCorrections rest
    match v with
    | .jstr s =>
      let t := pyStrip s
      if t.isEmpty then pure tail else pure (t :: tail)
    | _ => pure tail

/-- Result of the `/reindex` endpoint. -/
structure ReindexResult where
  added : Nat
  message : List Char
deriving DecidableEq

/-- Model of the `/reindex` endpoint (lines 194-232).  Missing file and
unparsable file return `added = 0` with a message; a parsed non-list is
treated as an empty list.  Extracted corrections are added to `documents` and
the index FIRST; only afterwards does the code append them to the manual
file, swallowing any write failure (`except Exception: pass`), so
`writeOk = false` leaves the manual file unchanged while memory and index
keep the new entries. -/
def reindex_from_feedback {V : Type} (embed : List Char → V) (st : KBState V)
    (writeOk : Bool) : Except Unit (KBState V × ReindexResult) :=
  match st.feedback with
  | .absent => .ok (st, ⟨0, "No feedback file found.".toList⟩)
  | .corrupt => .ok (st, ⟨0, "Failed to read feedback file.".toList⟩)
  | .parsed v => do
    let newTexts ← extractCorrections (jitems v)
    if newTexts.isEmpty then
      pure (st, ⟨0, "No corrections to add.".toList⟩)
    else
      pure ({ st with
          documents := st.documents ++ newTexts,
          index := index_texts embed st.index newTexts,
          manual := if writeOk then
              st.manual ++ (newTexts.map (fun t => '\n' :: (t ++ ['\n']))).flatten
            else st.manual },
        ⟨newTexts.length, "Corrections added to index and manual.".toList⟩)

/-- Negative feedback keywords of `/metrics` (line 115). -/
def negKeywords : List (List Char) :=
  ["incorrect".toList, "not helpful".toList, "wrong".toList, "bad".toList]

/-- Positive feedback keywords of `/metrics` (line 117). -/
def posKeywords : List (List Char) :=
  ["correct".toList, "helpful".toList, "good".toList, "useful".toList,
   "accurate".toList]

/-- Result of the `/metrics` endpoint.  The Python float division
`correct / total` is modelled as the exact rational. -/
structure MetricsResult where
  total : Nat
  correct : Nat
  incorrect : Nat
  accuracy : ℚ
deriving DecidableEq

/-- Model of `(x or "")` followed by a string method, as in
`(item.get("feedback") or "").lower()` (lines 111-112): a falsy value yields
`""`; a truthy non-string raises `AttributeError`. -/
def pyStrOrEmpty (v : JVal) : Except Unit (List Char) :=
  if truthy v then
    match v with
    | .jstr s => .ok s
    | _ => .error ()
  else .ok []

/-- One iteration of the `/metrics` classification loop (lines 107-120) over
the accumulator `(total, correct, incorrect)`.  Non-dict items are skipped
before `total` is incremented. -/
def classifyStep (acc : Nat × Nat × Nat) (item : JVal) :
    Except Unit (Nat × Nat × Nat) :=
  match item with
  | .jobj kvs => do
    let fbRaw ← pyStrOrEmpty (jget kvs "feedback".toList)
    let fb := pyLower fbRaw
    let corrRaw ← pyStrOrEmpty (jget kvs "correction".toList)
    let corr := pyStrip corrRaw
    if !corr.isEmpty then
      pure (acc.1 + 1, acc.2.1, acc.2.2 + 1)
    else if negKeywords.any (fun k => pyInStr k fb) then
      pure (acc.1 + 1, acc.2.1, acc.2.2 + 1)
    else if posKeywords.any (fun k => pyInStr k fb) then
      pure (acc.1 + 1, acc.2.1 + 1, acc.2.2)
    else
      pure (acc.1 + 1, acc.2.1, acc.2.2)
  | _ => pure acc

/-- Model of the `/metrics` endpoint (lines 94-122).  The read is tolerant
(missing, unparsable, or non-list content counts as no records), but the
classification itself can raise on a record whose `feedback` or `correction`
value is truthy and not a string. -/
def metrics (fb : FeedbackFile) : Except Unit MetricsResult := do
  let counts ← (readFeedbackItems fb).foldlM classifyStep (0, 0, 0)
  pure ⟨counts.1, counts.2.1, counts.2.2,
    if counts.1 > 0 then (counts.2.1 : ℚ) / (counts.1 : ℚ) else 0⟩

/-- One external request against the core state: `/ask` (with its oracle
inputs), `/feedback`, or `/reindex`. -/
inductive Op : Type where
  | opAsk (question : List Char) (searchIds : List Int) (apiKey : Bool)
      (gemini : Option (List Char)) (writeOk : Bool) : Op
  | opFeedback (rec : JVal) (writeOk : Bool) : Op
  | opReindex (writeOk : Bool) : Op

/-- The state reached after one request.  A `/reindex` request that raises
(`AttributeError`) mutates nothing, so the state is unchanged. -/
def stepState {V : Type} (embed : List Char → V) (st : KBState V) :
    Op → KBState V
  | .opAsk q ids key gem w => (ask embed st q ids key gem w).1
  | .opFeedback rec w => (feedbackOp st rec w).1
  | .opReindex w =>
    match reindex_from_feedback embed st w with
    | .ok (st', _) => st'
    | .error _ => st

/-- The state reached after a sequence of requests. -/
def runOps {V : Type} (embed : List Char → V) (st : KBState V)
    (ops : List Op) : KBState V :=
  ops.foldl (stepState embed) st

/-- The process-startup state (lines 73-79): the manual file's content is
loaded and indexed; a missing manual file is the empty content. -/
def initState {V : Type} (embed : List Char → V) (manual : List Char)
    (fb : FeedbackFile) : KBState V :=
  ⟨loadManual manual, index_texts embed [] (loadManual manual), manual, fb⟩

/-- A JSON item that is a dict. -/
def isDict : JVal → Bool
  | .jobj _ => true
  | _ => false

/-- A JSON value that is either falsy or a string — the shapes on which
`(x or "")`-then-string-method succeeds. -/
def strOrFalsy (v : JVal) : Bool :=
  !truthy v ||
    (match v with
     | .jstr _ => true
     | _ => false)

/-- A feedback item on which the reindex extraction cannot raise: falsy, or
a dict. -/
def safeItem (item : JVal) : Bool :=
  !truthy item || isDict item

/-- A feedback item carrying a non-empty trimmed string correction. -/
def hasCorrectionB (item : JVal) : Bool :=
  match item with
  | .jobj kvs =>
    (match jget kvs "correction".toList with
     | .jstr s => !(pyStrip s).isEmpty
     | _ => false)
  | _ => false

/-- A well-formed metrics record: a dict whose `feedback` and `correction`
values are falsy or strings. -/
def wfRecord (item : JVal) : Bool :=
  match item with
  | .jobj kvs =>
    strOrFalsy (jget kvs "feedback".toList) &&
      strOrFalsy (jget kvs "correction".toList)
  | _ => false

/-- The string carried by a JSON value, empty for non-strings. -/
def jstrOrEmpty : JVal → List Char
  | .jstr s => s
  | _ => []

/-- The string content of a dict field that is falsy-or-string (the value the
code's `(item.get(k) or "")` evaluates to on well-formed records). -/
def fieldStr (kvs : List (List Char × JVal)) (key : List Char) : List Char :=
  jstrOrEmpty (jget kvs key)

/-- The feedback text contains a negative keyword (after lowercasing), per
the claimed classification rule. -/
def hasNegB (fbText : List Char) : Bool :=
  negKeywords.any (fun k => pyInStr k (pyLower fbText))

/-- The feedback text contains a positive keyword (after lowercasing), per
the claimed classification rule. -/
def hasPosB (fbText : List Char) : Bool :=
  posKeywords.any (fun k => pyInStr k (pyLower fbText))

/-- Classification rule of the specification: a record counts as incorrect
when its trimmed correction is non-empty, otherwise when its feedback text
contains a negative keyword. -/
def recIsIncorrect (fbText corr : List Char) : Bool :=
  if !(pyStrip corr).isEmpty then true else hasNegB fbText

/-- Classification rule of the specification: a record counts as correct when
it is not classified incorrect and its feedback text contains a positive
keyword. -/
def recIsCorrect (fbText corr : List Char) : Bool :=
  if !(pyStrip corr).isEmpty then false
  else if hasNegB fbText then false
  else hasPosB fbText

/-- The claimed incorrect-classification, lifted to a raw feedback item. -/
def itemIncorrect (item : JVal) : Bool :=
  match item with
  | .jobj kvs =>
    recIsIncorrect (fieldStr kvs "feedback".toList)
      (fieldStr kvs "correction".toList)
  | _ => false

/-- The claimed correct-classification, lifted to a raw feedback item. -/
def itemCorrect (item : JVal) : Bool :=
  match item with
  | .jobj kvs =>
    recIsCorrect (fieldStr kvs "feedback".toList)
      (fieldStr kvs "correction".toList)
  | _ => false

/-- A fixed concrete embedding used by concrete witnesses and
counterexamples. -/
def emb0 : List Char → Nat := fun _ => 0

/-! ### Generic list toolkit -/

/-- The head surviving `dropWhile` fails the predicate. -/
theorem head?_dropWhile_false {α : Type} (p : α → Bool) (l : List α) (c : α)
    (h : (l.dropWhile p).head? = some c) : p c = false := by
  induction l with
  | nil => simp at h
  | cons a t ih =>
    rw [List.dropWhile_cons] at h
    by_cases ha : p a
    · rw [if_pos ha] at h
      exact ih h
    · rw [if_neg ha] at h
      simp only [List.head?_cons, Option.some.injEq] at h
      subst h
      simpa using ha

/-- Either `dropWhile` deletes everything or it keeps the last element. -/
theorem getLast?_dropWhile {α : Type} (p : α → Bool) (l : List α) :
    l.dropWhile p = [] ∨ (l.dropWhile p).getLast? = l.getLast? := by
  induction l with
  | nil => exact Or.inl rfl
  | cons a t ih =>
    rw [List.dropWhile_cons]
    by_cases ha : p a
    · rw [if_pos ha]
      rcases ih with h | h
      · exact Or.inl h
      · cases t with
        | nil => exact Or.inl (by simpa using h.symm ▸ rfl)
        | cons b t' => exact Or.inr (h.trans List.getLast?_cons_cons.symm)
    · rw [if_neg ha]
      exact Or.inr rfl

/-- A list whose head fails the predicate is unchanged by `dropWhile`. -/
theorem dropWhile_eq_self_of_head {α : Type} (p : α → Bool) (l : List α)
    (h : ∀ c, l.head? = some c → p c = false) : l.dropWhile p = l := by
  cases l with
  | nil => rfl
  | cons a t =>
    rw [List.dropWhile_cons, h a rfl]
    simp

/-- Members of `dropWhile p l` are members of `l`. -/
theorem mem_of_mem_dropWhile {α : Type} (p : α → Bool) (l : List α) (a : α)
    (h : a ∈ l.dropWhile p) : a ∈ l := by
  induction l with
  | nil => simpa using h
  | cons b t ih =>
    rw [List.dropWhile_cons] at h
    by_cases hb : p b
    · rw [if_pos hb] at h
      exact List.mem_cons_of_mem _ (ih h)
    · rw [if_neg hb] at h
      exact h

/-! ### Properties of `pyStrip` -/

/-- The first character of a stripped string is not whitespace. -/
theorem pyStrip_head? (l : List Char) (c : Char)
    (h : (pyStrip l).head? = some c) : isWS c = false := by
  unfold pyStrip trimRight trimLeft at h
  rw [List.head?_reverse] at h
  rcases getLast?_dropWhile isWS (List.dropWhile isWS l).reverse with h0 | h0
  · rw [h0] at h
    simp at h
  · rw [h0, List.getLast?_reverse] at h
    exact head?_dropWhile_false isWS l c h

/-- The last character of a stripped string is not whitespace. -/
theorem pyStrip_getLast? (l : List Char) (c : Char)
    (h : (pyStrip l).getLast? = some c) : isWS c = false := by
  unfold pyStrip trimRight trimLeft at h
  rw [List.getLast?_reverse] at h
  exact head?_dropWhile_false isWS (List.dropWhile isWS l).reverse c h

/-- A string whose first and last characters are not whitespace is fixed by
`pyStrip`. -/
theorem pyStrip_eq_self (l : List Char)
    (h1 : ∀ c, l.head? = some c → isWS c = false)
    (h2 : ∀ c, l.getLast? = some c → isWS c = false) : pyStrip l = l := by
  unfold pyStrip trimRight trimLeft
  rw [dropWhile_eq_self_of_head isWS l h1]
  rw [dropWhile_eq_self_of_head isWS l.reverse
    (fun c hc => h2 c (by rwa [List.head?_reverse] at hc))]
  exact List.reverse_reverse l

/-- Stripping is idempotent. -/
theorem pyStrip_idem (l : List Char) : pyStrip (pyStrip l) = pyStrip l :=
  pyStrip_eq_self (pyStrip l) (pyStrip_head? l) (pyStrip_getLast? l)

/-- Characters of a stripped string are characters of the original. -/
theorem mem_of_mem_pyStrip (l : List Char) (a : Char) (h : a ∈ pyStrip l) :
    a ∈ l := by
  unfold pyStrip trimRight trimLeft at h
  rw [List.mem_reverse] at h
  have h2 := mem_of_mem_dropWhile isWS _ _ h
  rw [List.mem_reverse] at h2
  exact mem_of_mem_dropWhile isWS _ _ h2

/-- A fixed point of `pyStrip` has a non-whitespace first character. -/
theorem head?_of_pyStrip_fix (l : List Char) (hfix : pyStrip l = l) (c : Char)
    (h : l.head? = some c) : isWS c = false :=
  pyStrip_head? l c (by rwa [hfix])

/-- A fixed point of `pyStrip` has a non-whitespace last character. -/
theorem getLast?_of_pyStrip_fix (l : List Char) (hfix : pyStrip l = l)
    (c : Char) (h : l.getLast? = some c) : isWS c = false :=
  pyStrip_getLast? l c (by rwa [hfix])

/-! ### Properties of `pyJoin` -/

/-- A join over non-empty pieces ends with the last character of some
piece. -/
theorem joinRest_getLast? (sep : List Char) (xs : List (List Char))
    (h : ∀ x ∈ xs, x ≠ []) :
    joinRest sep xs = [] ∨
      ∃ x ∈ xs, (joinRest sep xs).getLast? = x.getLast? := by
  induction xs with
  | nil => exact Or.inl rfl
  | cons x t ih =>
    have hx : x ≠ [] := h x (List.mem_cons_self x t)
    rcases ih (fun y hy => h y (List.mem_cons_of_mem _ hy)) with h0 | h0
    · refine Or.inr ⟨x, List.mem_cons_self x t, ?_⟩
      show (sep ++ x ++ joinRest sep t).getLast? = x.getLast?
      rw [h0, List.append_nil]
      exact List.getLast?_append_of_ne_nil sep hx
    · obtain ⟨y, hy, hlast⟩ := h0
      have hne : joinRest sep t ≠ [] := by
        intro h'
        rw [h', List.getLast?_eq_none_iff.mpr rfl] at hlast
        exact (h y (List.mem_cons_of_mem _ hy))
          (List.getLast?_eq_none_iff.mp hlast.symm)
      refine Or.inr ⟨y, List.mem_cons_of_mem _ hy, ?_⟩
      show (sep ++ x ++ joinRest sep t).getLast? = y.getLast?
      rw [List.getLast?_append_of_ne_nil _ hne]
      exact hlast

/-- A join of a non-empty family of non-empty pieces is non-empty. -/
theorem pyJoin_ne_nil (sep : List Char) (xs : List (List Char))
    (h1 : xs ≠ []) (h : ∀ x ∈ xs, x ≠ []) : pyJoin sep xs ≠ [] := by
  cases xs with
  | nil => exact absurd rfl h1
  | cons x t =>
    show x ++ joinRest sep t ≠ []
    simp [h x (List.mem_cons_self x t)]

/-- A non-empty join over non-empty pieces ends with the last character of
some piece. -/
theorem pyJoin_getLast? (sep : List Char) (xs : List (List Char))
    (h1 : xs ≠ []) (h : ∀ x ∈ xs, x ≠ []) :
    ∃ x ∈ xs, (pyJoin sep xs).getLast? = x.getLast? := by
  cases xs with
  | nil => exact absurd rfl h1
  | cons x t =>
    rcases joinRest_getLast? sep t (fun y hy => h y (List.mem_cons_of_mem _ hy))
      with h0 | h0
    · refine ⟨x, List.mem_cons_self x t, ?_⟩
      show (x ++ joinRest sep t).getLast? = x.getLast?
      rw [h0, List.append_nil]
    · obtain ⟨y, hy, hlast⟩ := h0
      have hne : joinRest sep t ≠ [] := by
        intro h'
        rw [h', List.getLast?_eq_none_iff.mpr rfl] at hlast
        exact (h y (List.mem_cons_of_mem _ hy))
          (List.getLast?_eq_none_iff.mp hlast.symm)
      refine ⟨y, List.mem_cons_of_mem _ hy, ?_⟩
      show (x ++ joinRest sep t).getLast? = y.getLast?
      rw [List.getLast?_append_of_ne_nil _ hne]
      exact hlast

/-! ### Properties of `splitLines` and `loadManual` -/

/-- Line splitting never returns an empty list of lines. -/
theorem splitLines_ne_nil (l : List Char) : splitLines l ≠ [] := by
  cases l with
  | nil => simp [splitLines]
  | cons c rest =>
    rw [splitLines]
    by_cases hc : c = '\n'
    · rw [if_pos hc]
      simp
    · rw [if_neg hc]
      cases h : splitLines rest with
      | nil => simp
      | cons a t => simp

/-- Splitting distributes over a newline separator. -/
theorem splitLines_append (a b : List Char) :
    splitLines (a ++ '\n' :: b) = splitLines a ++ splitLines b := by
  induction a with
  | nil =>
    show splitLines ('\n' :: b) = splitLines [] ++ splitLines b
    simp [splitLines]
  | cons c a' ih =>
    show splitLines (c :: (a' ++ '\n' :: b)) = splitLines (c :: a') ++ splitLines b
    by_cases hc : c = '\n'
    · rw [splitLines, if_pos hc, ih, splitLines, if_pos hc]
      rfl
    · rw [splitLines, if_neg hc, ih]
      conv_rhs => rw [splitLines, if_neg hc]
      cases h : splitLines a' with
      | nil => exact absurd h (splitLines_ne_nil a')
      | cons x t => simp

/-- A newline-free string is a single line. -/
theorem splitLines_of_no_newline (l : List Char) (h : '\n' ∉ l) :
    splitLines l = [l] := by
  induction l with
  | nil => rfl
  | cons c rest ih =>
    have hc : c ≠ '\n' := fun hc => h (hc ▸ List.mem_cons_self c rest)
    rw [splitLines, if_neg hc,
      ih (fun hm => h (List.mem_cons_of_mem _ hm))]

/-- Loading after one raw append of `"\n" ++ u ++ "\n"`: the blank separator
line is filtered out and the stripped, newline-free payload `u` becomes
exactly one further passage. -/
theorem loadManual_append_line (m u : List Char) (h1 : pyStrip u = u)
    (h2 : u ≠ []) (h3 : '\n' ∉ u) :
    loadManual (m ++ '\n' :: (u ++ ['\n'])) = loadManual m ++ [u] := by
  unfold loadManual
  rw [splitLines_append m (u ++ ['\n'])]
  have hsp : splitLines (u ++ ['\n']) = [u, []] := by
    have h4 := splitLines_append u ([] : List Char)
    rw [splitLines_of_no_newline u h3] at h4
    simpa [splitLines] using h4
  rw [hsp, List.map_append, List.filter_append]
  have hu : List.filter (fun l => !l.isEmpty) (List.map pyStrip [u, []]) = [u] := by
    have h0 : pyStrip ([] : List Char) = [] := rfl
    rw [List.map_cons, List.map_cons, List.map_nil, h1, h0]
    cases u with
    | nil => exact absurd rfl h2
    | cons a t => rfl
  rw [hu]

/-! ### Behavior of `_append_to_manual_and_index` -/

/-- Indexing a single text appends its single vector. -/
theorem index_texts_singleton {V : Type} (embed : List Char → V)
    (idx : List V) (t : List Char) :
    index_texts embed idx [t] = idx ++ [embed t] := by
  simp [index_texts]

/-- Full case analysis of the single-passage append: it either fails (empty
stripped text, or failed file write) leaving the state unchanged, or succeeds
having extended the manual file, the documents list, and the index. -/
theorem append_spec {V : Type} (embed : List Char → V) (st : KBState V)
    (text : List Char) (writeOk : Bool) :
    ((pyStrip text = [] ∨ writeOk = false) ∧
        append_to_manual_and_index embed st text writeOk = (st, false)) ∨
      (pyStrip text ≠ [] ∧ writeOk = true ∧
        append_to_manual_and_index embed st text writeOk =
          ({ st with
              manual := st.manual ++ '\n' :: (pyStrip text ++ ['\n']),
              documents := st.documents ++ [pyStrip text],
              index := st.index ++ [embed (pyStrip text)] }, true)) := by
  by_cases h1 : (pyStrip text).isEmpty
  · exact Or.inl ⟨Or.inl (by simpa using h1),
      by simp [append_to_manual_and_index, h1]⟩
  · cases writeOk with
    | false => exact Or.inl ⟨Or.inr rfl, by simp [append_to_manual_and_index, h1]⟩
    | true =>
      refine Or.inr ⟨by simpa using h1, rfl, ?_⟩
      simp [append_to_manual_and_index, h1, index_texts_singleton]

/-! ### Behavior of `retrieveDocs` -/

/-- Every retrieved passage is an element of the documents list. -/
theorem mem_of_mem_retrieveDocs (docs : List (List Char)) (ids : List Int)
    (s : List Char) (h : s ∈ retrieveDocs docs ids) : s ∈ docs := by
  unfold retrieveDocs at h
  rw [List.mem_filterMap] at h
  obtain ⟨i, _, hi⟩ := h
  by_cases hcond : 0 ≤ i ∧ i < (docs.length : Int)
  · rw [if_pos hcond] at hi
    exact List.get?_mem hi
  · rw [if_neg hcond] at hi
    exact absurd hi (by simp)

/-- No more passages are retrieved than ids were supplied. -/
theorem length_retrieveDocs_le (docs : List (List Char)) (ids : List Int) :
    (retrieveDocs docs ids).length ≤ ids.length :=
  List.length_filterMap_le _ _

/-! ### Behavior of the reindex extraction -/

/-- Reduction of `Except` bind on a success value. -/
theorem except_bind_ok {e a b : Type} (x : a) (f : a → Except e b) :
    (Except.ok x >>= f) = f x := rfl

/-- Extraction never raises over a list of falsy-or-dict items. -/
theorem extractCorrections_safe (items : List JVal)
    (h : ∀ item ∈ items, safeItem item = true) :
    ∃ ts, extractCorrections items = .ok ts := by
  induction items with
  | nil => exact ⟨[], rfl⟩
  | cons item rest ih =>
    obtain ⟨ts, hts⟩ := ih (fun x hx => h x (List.mem_cons_of_mem _ hx))
    have hsafe := h item (List.mem_cons_self item rest)
    have hv : ∃ v, getCorrectionValue item = .ok v := by
      unfold getCorrectionValue
      by_cases ht : truthy item
      · unfold safeItem at hsafe
        rw [ht] at hsafe
        simp only [Bool.not_true, Bool.false_or] at hsafe
        cases item with
        | jobj kvs => exact ⟨_, by rw [if_pos ht]⟩
        | jnull => simp [isDict] at hsafe
        | jbool b => simp [isDict] at hsafe
        | jnum n => simp [isDict] at hsafe
        | jstr s => simp [isDict] at hsafe
        | jarr xs => simp [isDict] at hsafe
      · exact ⟨_, by rw [if_neg ht]⟩
    obtain ⟨v, hv⟩ := hv
    unfold extractCorrections
    rw [hv, except_bind_ok, hts, except_bind_ok]
    cases v with
    | jstr s =>
      by_cases hs : (pyStrip s).isEmpty
      · refine ⟨ts, ?_⟩
        show (if (pyStrip s).isEmpty = true
            then (pure ts : Except Unit (List (List Char)))
            else pure (pyStrip s :: ts)) = Except.ok ts
        rw [if_pos hs]
        rfl
      · refine ⟨pyStrip s :: ts, ?_⟩
        show (if (pyStrip s).isEmpty = true
            then (pure ts : Except Unit (List (List Char)))
            else pure (pyStrip s :: ts)) = Except.ok (pyStrip s :: ts)
        rw [if_neg hs]
        rfl
    | jnull => exact ⟨ts, rfl⟩
    | jbool b => exact ⟨ts, rfl⟩
    | jnum n => exact ⟨ts, rfl⟩
    | jarr xs => exact ⟨ts, rfl⟩
    | jobj kvs => exact ⟨ts, rfl⟩

/-- Extraction of a list of correction-free, falsy-or-dict items yields the
empty batch. -/
theorem extractCorrections_none (items : List JVal)
    (h : ∀ item ∈ items, safeItem item = true ∧ hasCorrectionB item = false) :
    extractCorrections items = .ok [] := by
  induction items with
  | nil => rfl
  | cons item rest ih =>
    have hrest := ih (fun x hx => h x (List.mem_cons_of_mem _ hx))
    obtain ⟨hsafe, hnoc⟩ := h item (List.mem_cons_self item rest)
    have hv : getCorrectionValue item = .ok (.jnull) ∨
        (∃ kvs, item = .jobj kvs ∧
          getCorrectionValue item = .ok (jget kvs "correction".toList)) := by
      unfold getCorrectionValue
      by_cases ht : truthy item
      · unfold safeItem at hsafe
        rw [ht] at hsafe
        simp only [Bool.not_true, Bool.false_or] at hsafe
        cases item with
        | jobj kvs => exact Or.inr ⟨kvs, rfl, by rw [if_pos ht]⟩
        | jnull => simp [isDict] at hsafe
        | jbool b => simp [isDict] at hsafe
        | jnum n => simp [isDict] at hsafe
        | jstr s => simp [isDict] at hsafe
        | jarr xs => simp [isDict] at hsafe
      · exact Or.inl (by rw [if_neg ht]; rfl)
    rcases hv with hv | ⟨kvs, hitem, hv⟩
    · unfold extractCorrections
      rw [hv, except_bind_ok, hrest, except_bind_ok]
      rfl
    · unfold extractCorrections
      rw [hv, except_bind_ok, hrest, except_bind_ok]
      subst hitem
      cases hg : jget kvs "correction".toList with
      | jstr s =>
        have hval : hasCorrectionB (.jobj kvs) = !(pyStrip s).isEmpty := by
          show (match jget kvs "correction".toList with
              | JVal.jstr s => !(pyStrip s).isEmpty
              | _ => false) = !(pyStrip s).isEmpty
          rw [hg]
        rw [hnoc] at hval
        have hps : (pyStrip s).isEmpty = true := by
          cases hps : (pyStrip s).isEmpty
          · rw [hps] at hval
            simp at hval
          · rfl
        show (if (pyStrip s).isEmpty = true
            then (pure [] : Except Unit (List (List Char)))
            else pure [pyStrip s]) = Except.ok []
        rw [if_pos hps]
        rfl
      | jnull => rfl
      | jbool b => rfl
      | jnum n => rfl
      | jarr xs => rfl
      | jobj kvs2 => rfl


/-- Reduction of `Except` bind on an error value. -/
theorem except_bind_error {e a b : Type} (x : e) (f : a → Except e b) :
    ((Except.error x : Except e a) >>= f) = .error x := rfl

/-- Indexing a non-empty batch appends its vectors. -/
theorem index_texts_of_ne {V : Type} (embed : List Char → V) (idx : List V)
    (ts : List (List Char)) (h : ts ≠ []) :
    index_texts embed idx ts = idx ++ ts.map embed := by
  unfold index_texts
  rw [if_neg (by simpa using h)]

/-! ### Behavior of `/reindex` -/

/-- Definitional reduction of `/reindex` on a state whose feedback file
parses. -/
theorem reindex_parsed_eq {V : Type} (embed : List Char → V)
    (docs : List (List Char)) (idx : List V) (man : List Char) (v : JVal)
    (w : Bool) :
    reindex_from_feedback embed (⟨docs, idx, man, .parsed v⟩ : KBState V) w =
      (extractCorrections (jitems v) >>= fun newTexts =>
        if newTexts.isEmpty then
          pure ((⟨docs, idx, man, .parsed v⟩ : KBState V),
            (⟨0, "No corrections to add.".toList⟩ : ReindexResult))
        else
          pure ((⟨docs ++ newTexts, index_texts embed idx newTexts,
              (if w then
                man ++ (newTexts.map (fun t => '\n' :: (t ++ ['\n']))).flatten
              else man), .parsed v⟩ : KBState V),
            (⟨newTexts.length,
              "Corrections added to index and manual.".toList⟩ : ReindexResult))) :=
  rfl

/-- Shape of a non-raising reindex outcome: either the state is returned
unchanged, or a non-empty batch of corrections is appended to both the
documents list and the index (the feedback file is never modified). -/
theorem reindex_shape {V : Type} (embed : List Char → V) (st : KBState V)
    (w : Bool) (st' : KBState V) (r : ReindexResult)
    (h : reindex_from_feedback embed st w = .ok (st', r)) :
    st' = st ∨
      ∃ ts, ts ≠ [] ∧ st'.documents = st.documents ++ ts ∧
        st'.index = st.index ++ ts.map embed ∧ st'.feedback = st.feedback := by
  obtain ⟨docs, idx, man, fb⟩ := st
  cases fb with
  | absent =>
    have h2 : ((⟨docs, idx, man, .absent⟩ : KBState V),
        (⟨0, "No feedback file found.".toList⟩ : ReindexResult)) = (st', r) :=
      Except.ok.inj h
    exact Or.inl (congrArg Prod.fst h2).symm
  | corrupt =>
    have h2 : ((⟨docs, idx, man, .corrupt⟩ : KBState V),
        (⟨0, "Failed to read feedback file.".toList⟩ : ReindexResult)) = (st', r) :=
      Except.ok.inj h
    exact Or.inl (congrArg Prod.fst h2).symm
  | parsed v =>
    rw [reindex_parsed_eq] at h
    cases hex : extractCorrections (jitems v) with
    | error e =>
      rw [hex, except_bind_error] at h
      exact absurd h (by simp)
    | ok ts =>
      rw [hex, except_bind_ok] at h
      by_cases hts : ts.isEmpty
      · rw [if_pos hts] at h
        have h2 : ((⟨docs, idx, man, .parsed v⟩ : KBState V),
            (⟨0, "No corrections to add.".toList⟩ : ReindexResult)) = (st', r) :=
          Except.ok.inj h
        exact Or.inl (congrArg Prod.fst h2).symm
      · rw [if_neg hts] at h
        have h2 : ((⟨docs ++ ts, index_texts embed idx ts,
            (if w then
              man ++ (ts.map (fun t => '\n' :: (t ++ ['\n']))).flatten
            else man), .parsed v⟩ : KBState V),
            (⟨ts.length,
              "Corrections added to index and manual.".toList⟩ : ReindexResult))
            = (st', r) :=
          Except.ok.inj h
        have hst : st' = (⟨docs ++ ts, index_texts embed idx ts,
            (if w then
              man ++ (ts.map (fun t => '\n' :: (t ++ ['\n']))).flatten
            else man), .parsed v⟩ : KBState V) := (congrArg Prod.fst h2).symm
        subst hst
        refine Or.inr ⟨ts, by simpa using hts, rfl, ?_, rfl⟩
        exact index_texts_of_ne embed idx ts (by simpa using hts)

/-! ### Alignment between `documents` and the index -/

/-- The single append preserves alignment and never shrinks the documents
list. -/
theorem append_step_aligned {V : Type} (embed : List Char → V)
    (st : KBState V) (text : List Char) (writeOk : Bool)
    (h : st.documents.length = st.index.length) :
    (append_to_manual_and_index embed st text writeOk).1.documents.length =
        (append_to_manual_and_index embed st text writeOk).1.index.length ∧
      st.documents.length ≤
        (append_to_manual_and_index embed st text writeOk).1.documents.length := by
  rcases append_spec embed st text writeOk with ⟨_, heq⟩ | ⟨_, _, heq⟩
  · rw [heq]
    exact ⟨h, le_refl _⟩
  · rw [heq]
    simp [h]

/-- Unfolding of `stepState` on an `/ask` request. -/
theorem stepState_opAsk {V : Type} (embed : List Char → V) (st : KBState V)
    (q : List Char) (ids : List Int) (key : Bool) (gem : Option (List Char))
    (w : Bool) :
    stepState embed st (.opAsk q ids key gem w) =
      (ask embed st q ids key gem w).1 := rfl

/-- Unfolding of `stepState` on a `/feedback` request. -/
theorem stepState_opFeedback {V : Type} (embed : List Char → V)
    (st : KBState V) (rec : JVal) (w : Bool) :
    stepState embed st (.opFeedback rec w) = (feedbackOp st rec w).1 := rfl

/-- Unfolding of `stepState` on a `/reindex` request. -/
theorem stepState_opReindex {V : Type} (embed : List Char → V)
    (st : KBState V) (w : Bool) :
    stepState embed st (.opReindex w) =
      (match reindex_from_feedback embed st w with
       | .ok (st', _) => st'
       | .error _ => st) := rfl

/-- Every single request preserves alignment and never shrinks the documents
list. -/
theorem stepState_aligned {V : Type} (embed : List Char → V) (st : KBState V)
    (op : Op) (h : st.documents.length = st.index.length) :
    (stepState embed st op).documents.length =
        (stepState embed st op).index.length ∧
      st.documents.length ≤ (stepState embed st op).documents.length := by
  cases op with
  | opAsk q ids key gem w =>
    rw [stepState_opAsk]
    by_cases hd : st.documents.isEmpty
    · simp only [ask, if_pos hd]
      exact ⟨h, le_refl _⟩
    · simp only [ask, if_neg hd]
      exact append_step_aligned embed st _ w h
  | opFeedback rec w =>
    rw [stepState_opFeedback]
    cases w with
    | true => exact ⟨h, le_refl _⟩
    | false => exact ⟨h, le_refl _⟩
  | opReindex w =>
    rw [stepState_opReindex]
    cases hres : reindex_from_feedback embed st w with
    | error e => exact ⟨h, le_refl _⟩
    | ok out =>
      obtain ⟨st', r⟩ := out
      rcases reindex_shape embed st w st' r hres with rfl | ⟨ts, _, hd, hi, _⟩
      · exact ⟨h, le_refl _⟩
      · simp [hd, hi, h]

/-- Claim C1 (invariants).  After any sequence of `ask`, `feedback`, and
`reindex` requests starting from a state where the in-memory documents list
and the embedding index are aligned, they are still aligned, and the common
size never decreased.  Since every prefix of a request sequence is itself a
request sequence, this gives monotone growth along the whole process
lifetime. -/
theorem C1_alignment_invariant {V : Type} (embed : List Char → V)
    (st : KBState V) (ops : List Op)
    (h : st.documents.length = st.index.length) :
    (runOps embed st ops).documents.length =
        (runOps embed st ops).index.length ∧
      st.documents.length ≤ (runOps embed st ops).documents.length := by
  induction ops generalizing st with
  | nil => exact ⟨h, le_refl _⟩
  | cons op rest ih =>
    have hstep := stepState_aligned embed st op h
    have hrest := ih (stepState embed st op) hstep.1
    exact ⟨hrest.1, le_trans hstep.2 hrest.2⟩

/-- Witness for C1: a concrete startup state (two passages loaded from the
manual) and a concrete request sequence exercising all three operations. -/
theorem C1_alignment_invariant_witness :
    ((initState emb0 "Check oil level monthly.\nReplace brake pads.\n".toList
        (.parsed (.jarr [.jobj [("correction".toList,
          .jstr "Use torque wrench.".toList)]]))).documents.length =
      (initState emb0 "Check oil level monthly.\nReplace brake pads.\n".toList
        (.parsed (.jarr [.jobj [("correction".toList,
          .jstr "Use torque wrench.".toList)]]))).index.length) ∧
    ((runOps emb0 (initState emb0
        "Check oil level monthly.\nReplace brake pads.\n".toList
        (.parsed (.jarr [.jobj [("correction".toList,
          .jstr "Use torque wrench.".toList)]])))
        [.opAsk "q".toList [0, 1] true (some "Fused answer.".toList) true,
         .opFeedback (.jobj [("feedback".toList, .jstr "wrong".toList)]) true,
         .opReindex true]).documents.length =
      (runOps emb0 (initState emb0
        "Check oil level monthly.\nReplace brake pads.\n".toList
        (.parsed (.jarr [.jobj [("correction".toList,
          .jstr "Use torque wrench.".toList)]])))
        [.opAsk "q".toList [0, 1] true (some "Fused answer.".toList) true,
         .opFeedback (.jobj [("feedback".toList, .jstr "wrong".toList)]) true,
         .opReindex true]).index.length ∧
      (initState emb0 "Check oil level monthly.\nReplace brake pads.\n".toList
        (.parsed (.jarr [.jobj [("correction".toList,
          .jstr "Use torque wrench.".toList)]]))).documents.length ≤
        (runOps emb0 (initState emb0
          "Check oil level monthly.\nReplace brake pads.\n".toList
          (.parsed (.jarr [.jobj [("correction".toList,
            .jstr "Use torque wrench.".toList)]])))
          [.opAsk "q".toList [0, 1] true (some "Fused answer.".toList) true,
           .opFeedback (.jobj [("feedback".toList, .jstr "wrong".toList)]) true,
           .opReindex true]).documents.length) :=
  ⟨by decide,
    C1_alignment_invariant emb0
      (initState emb0 "Check oil level monthly.\nReplace brake pads.\n".toList
        (.parsed (.jarr [.jobj [("correction".toList,
          .jstr "Use torque wrench.".toList)]])))
      [.opAsk "q".toList [0, 1] true (some "Fused answer.".toList) true,
       .opFeedback (.jobj [("feedback".toList, .jstr "wrong".toList)]) true,
       .opReindex true]
      (by decide)⟩

/-- Claim C3 (error handling).  The single-passage append succeeds exactly
when the stripped text is non-empty and the file write succeeds; on failure
the whole state (documents, index, manual file) is unchanged; on success the
manual file, the documents list and the index are all extended by the
stripped text.  In this sequential embedding, the source's
write-the-file-first ordering is visible as the failure clause: a failed
write leaves the in-memory structures untouched. -/
theorem C3_append_success_iff_and_atomic {V : Type} (embed : List Char → V)
    (st : KBState V) (text : List Char) (writeOk : Bool) :
    ((append_to_manual_and_index embed st text writeOk).2 = true ↔
        (pyStrip text ≠ [] ∧ writeOk = true)) ∧
      ((append_to_manual_and_index embed st text writeOk).2 = false →
        (append_to_manual_and_index embed st text writeOk).1 = st) ∧
      ((append_to_manual_and_index embed st text writeOk).2 = true →
        (append_to_manual_and_index embed st text writeOk).1 =
          { st with
              manual := st.manual ++ '\n' :: (pyStrip text ++ ['\n']),
              documents := st.documents ++ [pyStrip text],
              index := st.index ++ [embed (pyStrip text)] }) := by
  rcases append_spec embed st text writeOk with ⟨hfail, heq⟩ | ⟨h1, h2, heq⟩
  · rw [heq]
    refine ⟨⟨fun hf => absurd hf (by simp), fun ⟨hne, hw⟩ => ?_⟩,
      fun _ => rfl, fun hf => absurd hf (by simp)⟩
    rcases hfail with hfail | hfail
    · exact absurd hfail hne
    · rw [hfail] at hw
      exact absurd hw (by simp)
  · rw [heq]
    exact ⟨⟨fun _ => ⟨h1, h2⟩, fun _ => rfl⟩, fun hf => absurd hf (by simp),
      fun _ => rfl⟩

/-- Witness for C3 at concrete inputs: `" hello "` with a working write
succeeds; whitespace-only text fails and leaves the concrete state
unchanged. -/
theorem C3_append_success_iff_and_atomic_witness :
    (append_to_manual_and_index emb0
        (⟨["a".toList], [7], "a\n".toList, .absent⟩ : KBState Nat)
        " hello ".toList true).2 = true ∧
      (append_to_manual_and_index emb0
        (⟨["a".toList], [7], "a\n".toList, .absent⟩ : KBState Nat)
        "   ".toList true).1 = ⟨["a".toList], [7], "a\n".toList, .absent⟩ :=
  ⟨(C3_append_success_iff_and_atomic emb0
      ⟨["a".toList], [7], "a\n".toList, .absent⟩ " hello ".toList true).1.mpr
      ⟨by decide, rfl⟩,
    (C3_append_success_iff_and_atomic emb0
      ⟨["a".toList], [7], "a\n".toList, .absent⟩ "   ".toList true).2.1
      (by decide)⟩

/-- Claim C2 (error handling) is violated by the code: with one pending
correction and a manual-file write that fails, `/reindex` has already added
the document and its vector to the in-memory knowledge base before
attempting the write, swallows the failure (`except Exception: pass`), and
reports `added = 1` — the index now holds a vector for text that was never
durably written (the manual file is unchanged). -/
theorem C2_reindex_indexes_unpersisted_text_bug :
    reindex_from_feedback emb0
      (⟨["doc0".toList], [0], "m".toList,
        .parsed (.jarr [.jobj [("correction".toList,
          .jstr "Check coolant level.".toList)]])⟩ : KBState Nat) false
    = .ok (⟨["doc0".toList, "Check coolant level.".toList], [0, 0], "m".toList,
        .parsed (.jarr [.jobj [("correction".toList,
          .jstr "Check coolant level.".toList)]])⟩,
      ⟨1, "Corrections added to index and manual.".toList⟩) := rfl

/-- Claim C7 (error handling).  `/reindex` returns `added = 0` with an
explanatory message and leaves the whole state (in particular documents and
index) unchanged when the feedback file is absent, when it is unparsable,
and when it parses but no record carries a non-empty trimmed string
correction (records being dict-or-falsy items, as produced by the feedback
endpoint; a parsed non-list also lands in this case since it is read as an
empty record list). -/
theorem C7_reindex_noop_cases {V : Type} (embed : List Char → V)
    (st : KBState V) (w : Bool) :
    (st.feedback = .absent →
        reindex_from_feedback embed st w =
          .ok (st, ⟨0, "No feedback file found.".toList⟩)) ∧
      (st.feedback = .corrupt →
        reindex_from_feedback embed st w =
          .ok (st, ⟨0, "Failed to read feedback file.".toList⟩)) ∧
      ((∀ item ∈ readFeedbackItems st.feedback,
          safeItem item = true ∧ hasCorrectionB item = false) →
        ∀ v, st.feedback = .parsed v →
          reindex_from_feedback embed st w =
            .ok (st, ⟨0, "No corrections to add.".toList⟩)) := by
  obtain ⟨docs, idx, man, fb⟩ := st
  refine ⟨fun h => ?_, fun h => ?_, fun hsafe v h => ?_⟩
  · cases h
    rfl
  · cases h
    rfl
  · cases h
    rw [reindex_parsed_eq,
      extractCorrections_none (jitems v) hsafe, except_bind_ok]
    rfl

/-- Witness for C7 at concrete inputs: an absent feedback file, and a parsed
log holding one record whose feedback text is negative but which has no
correction. -/
theorem C7_reindex_noop_cases_witness :
    reindex_from_feedback emb0
        (⟨["a".toList], [0], "m".toList, .absent⟩ : KBState Nat) true =
      .ok (⟨["a".toList], [0], "m".toList, .absent⟩,
        ⟨0, "No feedback file found.".toList⟩) ∧
      reindex_from_feedback emb0
        (⟨["a".toList], [0], "m".toList,
          .parsed (.jarr [.jobj [("feedback".toList,
            .jstr "wrong".toList)], .jnull])⟩ : KBState Nat) true =
      .ok (⟨["a".toList], [0], "m".toList,
          .parsed (.jarr [.jobj [("feedback".toList,
            .jstr "wrong".toList)], .jnull])⟩,
        ⟨0, "No corrections to add.".toList⟩) :=
  ⟨(C7_reindex_noop_cases emb0 ⟨["a".toList], [0], "m".toList, .absent⟩
      true).1 rfl,
    (C7_reindex_noop_cases emb0 ⟨["a".toList], [0], "m".toList,
        .parsed (.jarr [.jobj [("feedback".toList, .jstr "wrong".toList)],
          .jnull])⟩ true).2.2 (by decide) _ rfl⟩

/-- Extraction of a single dict record whose `correction` value is the string
`c` with non-empty trimmed content yields exactly the stripped correction. -/
theorem extractCorrections_single (kvs : List (List Char × JVal))
    (c : List Char) (hc : jget kvs "correction".toList = .jstr c)
    (hne : pyStrip c ≠ []) :
    extractCorrections [JVal.jobj kvs] = .ok [pyStrip c] := by
  have hkvs : kvs ≠ [] := by
    intro hk
    rw [hk] at hc
    exact absurd hc (by simp [jget])
  have ht : truthy (.jobj kvs) = true := by
    unfold truthy
    simpa using hkvs
  have hgv : getCorrectionValue (.jobj kvs) = .ok (.jstr c) := by
    unfold getCorrectionValue
    rw [if_pos ht]
    show Except.ok (jget kvs "correction".toList) = Except.ok (JVal.jstr c)
    rw [hc]
  unfold extractCorrections
  rw [hgv, except_bind_ok,
    show extractCorrections [] = Except.ok [] from rfl, except_bind_ok]
  show (if (pyStrip c).isEmpty = true
      then (pure [] : Except Unit (List (List Char)))
      else pure [pyStrip c]) = Except.ok [pyStrip c]
  rw [if_neg (by simpa using hne)]
  rfl

/-- Claim C6 (functional correctness).  On a feedback log holding exactly one
record with a non-empty (after trimming) string correction, `/reindex` is not
idempotent: the first run reports `added = 1` and appends the stripped
correction as a new passage, and a second run on the same unmodified log
reports `added = 1` again and appends a duplicate — the documents list grows
by one on each run. -/
theorem C6_reindex_not_idempotent {V : Type} (embed : List Char → V)
    (st : KBState V) (kvs : List (List Char × JVal)) (c : List Char)
    (w1 w2 : Bool)
    (hfb : st.feedback = .parsed (.jarr [.jobj kvs]))
    (hc : jget kvs "correction".toList = .jstr c)
    (hne : pyStrip c ≠ []) :
    ∃ st1 r1 st2 r2,
      reindex_from_feedback embed st w1 = .ok (st1, r1) ∧ r1.added = 1 ∧
        st1.documents = st.documents ++ [pyStrip c] ∧
        st1.documents.length = st.documents.length + 1 ∧
        reindex_from_feedback embed st1 w2 = .ok (st2, r2) ∧ r2.added = 1 ∧
        st2.documents = st.documents ++ [pyStrip c, pyStrip c] ∧
        st2.documents.length = st1.documents.length + 1 := by
  obtain ⟨docs, idx, man, fb⟩ := st
  cases hfb
  have hext := extractCorrections_single kvs c hc hne
  have hjit : jitems (.jarr [JVal.jobj kvs]) = [JVal.jobj kvs] := rfl
  have hr1 : reindex_from_feedback embed
      (⟨docs, idx, man, .parsed (.jarr [.jobj kvs])⟩ : KBState V) w1 =
      .ok (⟨docs ++ [pyStrip c], index_texts embed idx [pyStrip c],
          (if w1 then
            man ++ (([pyStrip c]).map (fun t => '\n' :: (t ++ ['\n']))).flatten
          else man), .parsed (.jarr [.jobj kvs])⟩,
        ⟨1, "Corrections added to index and manual.".toList⟩) := by
    rw [reindex_parsed_eq, hjit, hext, except_bind_ok]
    rfl
  have hr2 : reindex_from_feedback embed
      (⟨docs ++ [pyStrip c], index_texts embed idx [pyStrip c],
          (if w1 then
            man ++ (([pyStrip c]).map (fun t => '\n' :: (t ++ ['\n']))).flatten
          else man), .parsed (.jarr [.jobj kvs])⟩ : KBState V) w2 =
      .ok (⟨(docs ++ [pyStrip c]) ++ [pyStrip c],
          index_texts embed (index_texts embed idx [pyStrip c]) [pyStrip c],
          (if w2 then
            (if w1 then
              man ++ (([pyStrip c]).map (fun t => '\n' :: (t ++ ['\n']))).flatten
            else man) ++ (([pyStrip c]).map (fun t => '\n' :: (t ++ ['\n']))).flatten
          else
            (if w1 then
              man ++ (([pyStrip c]).map (fun t => '\n' :: (t ++ ['\n']))).flatten
            else man)), .parsed (.jarr [.jobj kvs])⟩,
        ⟨1, "Corrections added to index and manual.".toList⟩) := by
    rw [reindex_parsed_eq, hjit, hext, except_bind_ok]
    rfl
  refine ⟨_, _, _, _, hr1, rfl, rfl, by simp, hr2, rfl, ?_, by simp⟩
  rw [List.append_assoc]
  rfl

/-- Witness for C6 at the specification's concrete scenario: one feedback
record with correction `"Correct answer text"`. -/
theorem C6_reindex_not_idempotent_witness :
    ∃ st1 r1 st2 r2,
      reindex_from_feedback emb0
          (⟨["a".toList], [0], "m".toList,
            .parsed (.jarr [.jobj [("question".toList, .jstr "Q".toList),
              ("answer".toList, .jstr "A".toList),
              ("feedback".toList, .jstr "wrong".toList),
              ("correction".toList,
                .jstr "Correct answer text".toList)]])⟩ : KBState Nat) true =
        .ok (st1, r1) ∧ r1.added = 1 ∧
        st1.documents = ["a".toList] ++ ["Correct answer text".toList] ∧
        st1.documents.length = (["a".toList]).length + 1 ∧
        reindex_from_feedback emb0 st1 true = .ok (st2, r2) ∧ r2.added = 1 ∧
        st2.documents = ["a".toList] ++
          ["Correct answer text".toList, "Correct answer text".toList] ∧
        st2.documents.length = st1.documents.length + 1 := by
  have h := C6_reindex_not_idempotent emb0
    (⟨["a".toList], [0], "m".toList,
      .parsed (.jarr [.jobj [("question".toList, .jstr "Q".toList),
        ("answer".toList, .jstr "A".toList),
        ("feedback".toList, .jstr "wrong".toList),
        ("correction".toList, .jstr "Correct answer text".toList)]])⟩ :
      KBState Nat)
    [("question".toList, .jstr "Q".toList),
      ("answer".toList, .jstr "A".toList),
      ("feedback".toList, .jstr "wrong".toList),
      ("correction".toList, .jstr "Correct answer text".toList)]
    "Correct answer text".toList true true rfl rfl (by decide)
  simpa using h

/-- Claim C9 as stated is violated by the code: a parsed feedback list
containing the truthy non-dict element `"hello"` makes `/reindex` raise an
uncaught `AttributeError` (from `(item or {}).get("correction")`) instead of
skipping the malformed entry. -/
theorem C9_reindex_raises_counterexample :
    reindex_from_feedback emb0
      (⟨[], [], [], .parsed (.jarr [.jstr "hello".toList])⟩ : KBState Nat)
      true = .error () := rfl

/-- Claim C9, amended: `/reindex` never raises when the feedback file is
absent, unparsable, parses to a non-list, or parses to a list whose truthy
elements are all dicts (falsy elements of any shape are tolerated and
skipped); only a truthy non-dict element makes it raise. -/
theorem C9_reindex_total_amended {V : Type} (embed : List Char → V)
    (st : KBState V) (w : Bool)
    (h : ∀ item ∈ readFeedbackItems st.feedback, safeItem item = true) :
    ∃ out, reindex_from_feedback embed st w = .ok out := by
  obtain ⟨docs, idx, man, fb⟩ := st
  cases fb with
  | absent => exact ⟨_, rfl⟩
  | corrupt => exact ⟨_, rfl⟩
  | parsed v =>
    obtain ⟨ts, hex⟩ := extractCorrections_safe (jitems v) h
    by_cases hts : ts.isEmpty
    · exact ⟨_, by rw [reindex_parsed_eq, hex, except_bind_ok, if_pos hts]; exact rfl⟩
    · exact ⟨_, by rw [reindex_parsed_eq, hex, except_bind_ok, if_neg hts]; exact rfl⟩

/-- Witness for the amended C9: a log mixing a falsy element (`null`) and a
dict record is processed without raising. -/
theorem C9_reindex_total_amended_witness :
    ∃ out, reindex_from_feedback emb0
      (⟨[], [], [], .parsed (.jarr [.jnull,
        .jobj [("correction".toList, .jstr "X".toList)]])⟩ : KBState Nat)
      true = .ok out :=
  C9_reindex_total_amended emb0
    ⟨[], [], [], .parsed (.jarr [.jnull,
      .jobj [("correction".toList, .jstr "X".toList)]])⟩ true (by decide)

/-- Claim C10 as stated is violated by the code on padded input: appending
`" x "` (non-empty after trimming, no newline) to an empty manual succeeds,
but a fresh load yields the trimmed passage `"x"`, not `" x "` — because the
append itself strips the text before writing. -/
theorem C10_roundtrip_counterexample :
    (append_to_manual_and_index emb0 (⟨[], [], [], .absent⟩ : KBState Nat)
        " x ".toList true).2 = true ∧
      pyStrip " x ".toList ≠ [] ∧ '\n' ∉ " x ".toList ∧
      loadManual ((append_to_manual_and_index emb0
          (⟨[], [], [], .absent⟩ : KBState Nat) " x ".toList true).1.manual) =
        ["x".toList] ∧
      loadManual (⟨[], [], [], .absent⟩ : KBState Nat).manual ++
          [" x ".toList] = [" x ".toList] ∧
      ["x".toList] ≠ [" x ".toList] := by
  decide

/-- Claim C10, amended.  Starting from any manual file, a sequence of
successful appends of texts that are non-empty after trimming and contain no
newline reloads as the original passages followed by the TRIMMED texts in
order (the append strips each text before writing; the blank separator lines
are filtered out by the load).  Second conjunct: a text containing an
internal newline instead reloads as multiple passages (concrete instance
`"a\nb"` reloading as two passages). -/
theorem C10_append_load_roundtrip_amended {V : Type} (embed : List Char → V)
    (st : KBState V) (ts : List (List Char))
    (h : ∀ t ∈ ts, pyStrip t ≠ [] ∧ '\n' ∉ t) :
    (loadManual ((ts.foldl (fun s t =>
          (append_to_manual_and_index embed s t true).1) st).manual) =
        loadManual st.manual ++ ts.map pyStrip) ∧
      loadManual ((append_to_manual_and_index emb0
          (⟨[], [], [], .absent⟩ : KBState Nat) "a\nb".toList true).1.manual) =
        ["a".toList, "b".toList] := by
  refine ⟨?_, by decide⟩
  induction ts generalizing st with
  | nil => simp
  | cons t rest ih =>
    obtain ⟨hne, hnl⟩ := h t (List.mem_cons_self t rest)
    rcases append_spec embed st t true with ⟨hfail, _⟩ | ⟨_, _, heq⟩
    · rcases hfail with hf | hf
      · exact absurd hf hne
      · exact absurd hf (by simp)
    · show loadManual (((t :: rest).foldl (fun s t =>
          (append_to_manual_and_index embed s t true).1) st).manual) = _
      rw [List.foldl_cons, heq]
      have hload : loadManual (st.manual ++ '\n' :: (pyStrip t ++ ['\n'])) =
          loadManual st.manual ++ [pyStrip t] :=
        loadManual_append_line st.manual (pyStrip t) (pyStrip_idem t) hne
          (fun hm => hnl (mem_of_mem_pyStrip t '\n' hm))
      have := ih { st with
          manual := st.manual ++ '\n' :: (pyStrip t ++ ['\n']),
          documents := st.documents ++ [pyStrip t],
          index := st.index ++ [embed (pyStrip t)] }
        (fun x hx => h x (List.mem_cons_of_mem _ hx))
      rw [this, List.map_cons]
      show (loadManual (st.manual ++ '\n' :: (pyStrip t ++ ['\n']))) ++ _ = _
      rw [hload, List.append_assoc]
      rfl

/-- Witness for the amended C10: two appends (one already trimmed, one
padded) onto a one-passage manual. -/
theorem C10_append_load_roundtrip_amended_witness :
    (∀ t ∈ ["Use wrench.".toList, "  padded  ".toList],
        pyStrip t ≠ [] ∧ '\n' ∉ t) ∧
      loadManual (((["Use wrench.".toList, "  padded  ".toList]).foldl
          (fun s t => (append_to_manual_and_index emb0 s t true).1)
          (⟨["Check oil.".toList], [0], "Check oil.\n".toList, .absent⟩ :
            KBState Nat)).manual) =
        loadManual "Check oil.\n".toList ++
          (["Use wrench.".toList, "  padded  ".toList]).map pyStrip :=
  ⟨by decide,
    (C10_append_load_roundtrip_amended emb0
      ⟨["Check oil.".toList], [0], "Check oil.\n".toList, .absent⟩
      ["Use wrench.".toList, "  padded  ".toList] (by decide)).1⟩

/-! ### The fused answer is non-empty and strip-fixed -/

/-- On a state whose passages are strip-fixed and non-empty, the KB-only
fallback answer is non-empty and fixed by stripping. -/
theorem fallbackAnswer_good (retrieved : List (List Char))
    (h : ∀ x ∈ retrieved, pyStrip x = x ∧ x ≠ []) :
    pyStrip (fallbackAnswer (kbContextOf retrieved)) =
        fallbackAnswer (kbContextOf retrieved) ∧
      fallbackAnswer (kbContextOf retrieved) ≠ [] := by
  cases hr : retrieved.isEmpty
  · have hrne : retrieved ≠ [] := by
      intro h0
      rw [h0] at hr
      simp at hr
    have hpieces : ∀ x ∈ retrieved, x ≠ [] := fun x hx => (h x hx).2
    have hctx : kbContextOf retrieved = pyJoin " | ".toList retrieved := by
      unfold kbContextOf
      rw [if_neg (by simp [hr])]
    have hctxne : pyJoin " | ".toList retrieved ≠ [] :=
      pyJoin_ne_nil _ retrieved hrne hpieces
    have hfb : fallbackAnswer (kbContextOf retrieved) =
        "Based on the manual: ".toList ++ pyJoin " | ".toList retrieved := by
      unfold fallbackAnswer
      rw [hctx, if_neg (by simpa using hctxne)]
    rw [hfb]
    constructor
    · refine pyStrip_eq_self _ ?_ ?_
      · intro c hc
        have hlit : "Based on the manual: ".toList =
            'B' :: "ased on the manual: ".toList := rfl
        rw [hlit, List.cons_append, List.head?_cons] at hc
        cases hc
        decide
      · intro c hc
        rw [List.getLast?_append_of_ne_nil _ hctxne] at hc
        obtain ⟨x, hx, hlast⟩ := pyJoin_getLast? " | ".toList retrieved
          hrne hpieces
        rw [hlast] at hc
        exact getLast?_of_pyStrip_fix x (h x hx).1 c hc
    · simp
  · have hctx : kbContextOf retrieved = [] := by
      unfold kbContextOf
      rw [if_pos hr]
    rw [hctx]
    decide

/-- On a state whose passages are strip-fixed and non-empty, the fused answer
(whatever the Gemini outcome) is non-empty and fixed by stripping. -/
theorem fusedAnswer_good (retrieved : List (List Char)) (key : Bool)
    (gem : Option (List Char))
    (h : ∀ x ∈ retrieved, pyStrip x = x ∧ x ≠ []) :
    pyStrip (fusedAnswer (kbContextOf retrieved) key gem) =
        fusedAnswer (kbContextOf retrieved) key gem ∧
      fusedAnswer (kbContextOf retrieved) key gem ≠ [] := by
  cases key with
  | false =>
    have he : fusedAnswer (kbContextOf retrieved) false gem =
        fallbackAnswer (kbContextOf retrieved) := rfl
    rw [he]
    exact fallbackAnswer_good retrieved h
  | true =>
    cases gem with
    | none =>
      have he : fusedAnswer (kbContextOf retrieved) true none =
          fallbackAnswer (kbContextOf retrieved) := rfl
      rw [he]
      exact fallbackAnswer_good retrieved h
    | some g =>
      have he : fusedAnswer (kbContextOf retrieved) true (some g) =
          (if (pyStrip g).isEmpty then fallbackAnswer (kbContextOf retrieved)
            else pyStrip g) := rfl
      rw [he]
      by_cases hg : (pyStrip g).isEmpty
      · rw [if_pos hg]
        exact fallbackAnswer_good retrieved h
      · rw [if_neg hg]
        exact ⟨pyStrip_idem g, by simpa using hg⟩

/-- Claim C4 as stated is violated by the code: with one passage `"alpha"`,
a search id row `[-1]` (within the collaborator contract, since its length is
at most `min(3, 1)`), and a successful Gemini call, every id is filtered out
and `/ask` returns the marker `["gemini-generated"]` as sources — a
one-element sources list whose element is not a passage of the documents
list. -/
theorem C4_ask_sources_counterexample :
    ([(-1 : Int)].length ≤
        min 3 ((["alpha".toList] : List (List Char))).length) ∧
      (ask emb0 (⟨["alpha".toList], [0], [], .absent⟩ : KBState Nat)
          "q".toList [(-1 : Int)] true (some "ans".toList) true).2.sources =
        [geminiMarker] ∧
      geminiMarker ∉ (["alpha".toList] : List (List Char)) := by
  decide

/-- Claim C4, amended.  Provided the underlying search returns at most
`k = min(3, len(documents))` ids, the sources of `/ask` number at most
`min(3, len(documents))`; on an empty knowledge base they are empty (and no
error is raised — `ask` is total); and they are either all passages at valid
indices of the documents list, or the single marker `["gemini-generated"]`
(which occurs exactly when every id was filtered out and the configured
Gemini call did not fail). -/
theorem C4_ask_sources_amended {V : Type} (embed : List Char → V)
    (st : KBState V) (q : List Char) (ids : List Int) (key : Bool)
    (gem : Option (List Char)) (w : Bool)
    (hlen : ids.length ≤ min 3 st.documents.length) :
    ((ask embed st q ids key gem w).2.sources.length ≤
        min 3 st.documents.length) ∧
      (st.documents = [] → (ask embed st q ids key gem w).2.sources = []) ∧
      ((∀ s ∈ (ask embed st q ids key gem w).2.sources,
          ∃ i, st.documents.get? i = some s) ∨
        (ask embed st q ids key gem w).2.sources = [geminiMarker]) := by
  by_cases hd : st.documents.isEmpty
  · simp only [ask, if_pos hd]
    exact ⟨Nat.zero_le _, fun _ => trivial, Or.inl (by simp)⟩
  · simp only [ask, if_neg hd]
    have hne : st.documents ≠ [] := by simpa using hd
    have hlen1 : 1 ≤ min 3 st.documents.length := by
      have : 1 ≤ st.documents.length :=
        Nat.succ_le_of_lt (List.length_pos_of_ne_nil hne)
      omega
    by_cases hr : (retrieveDocs st.documents ids).isEmpty
    · unfold askSources
      rw [if_pos hr]
      by_cases hmark : key && gem.isSome
      · rw [if_pos hmark]
        exact ⟨by simpa using hlen1, fun h0 => absurd h0 hne, Or.inr rfl⟩
      · rw [if_neg hmark]
        exact ⟨Nat.zero_le _, fun h0 => absurd h0 hne, Or.inl (by simp)⟩
    · unfold askSources
      rw [if_neg hr]
      refine ⟨le_trans (length_retrieveDocs_le st.documents ids) hlen,
        fun h0 => absurd h0 hne, Or.inl ?_⟩
      intro s hs
      exact List.get?_of_mem (mem_of_mem_retrieveDocs st.documents ids s hs)

/-- Witness for the amended C4: two passages, search ids `[1, 0]`, both in
range; the sources are those two passages and every amended conjunct holds. -/
theorem C4_ask_sources_amended_witness :
    (([(1 : Int), 0]).length ≤
        min 3 ((["alpha".toList, "beta".toList] : List (List Char))).length) ∧
      ((ask emb0 (⟨["alpha".toList, "beta".toList], [0, 0], [],
          .absent⟩ : KBState Nat) "q".toList [(1 : Int), 0] true
          (some "ans".toList) true).2.sources.length ≤
        min 3 ((["alpha".toList, "beta".toList] : List (List Char))).length) :=
  ⟨by decide,
    (C4_ask_sources_amended emb0
      ⟨["alpha".toList, "beta".toList], [0, 0], [], .absent⟩ "q".toList
      [(1 : Int), 0] true (some "ans".toList) true (by decide)).1⟩

/-- Claim C5 as stated is violated by the code: on an empty knowledge base,
`/ask` returns the answer `"Knowledge base is empty."` from an early return
that never reaches the append, so the returned answer is not appended to
documents, index or manual file (the state is unchanged). -/
theorem C5_answer_persisted_counterexample :
    (ask emb0 (⟨[], [], [], .absent⟩ : KBState Nat) "q".toList []
        true (some "ans".toList) true).2.answer =
      "Knowledge base is empty.".toList ∧
      (ask emb0 (⟨[], [], [], .absent⟩ : KBState Nat) "q".toList []
        true (some "ans".toList) true).1 = ⟨[], [], [], .absent⟩ :=
  ⟨rfl, rfl⟩

/-- Claim C5, amended.  When the documents list is non-empty (its passages
being the strip-fixed non-empty lines that load and append produce) and the
manual-file write succeeds, the answer returned by `/ask` — generated or
fallback — has been appended to the documents list, the embedding index, and
the manual file.  (When the documents list is empty, a fixed message is
returned without appending — the counterexample; and a failed write also
skips the append, the boolean result being ignored.) -/
theorem C5_ask_appends_answer_amended {V : Type} (embed : List Char → V)
    (st : KBState V) (q : List Char) (ids : List Int) (key : Bool)
    (gem : Option (List Char))
    (hne : st.documents ≠ [])
    (hdocs : ∀ d ∈ st.documents, pyStrip d = d ∧ d ≠ []) :
    (ask embed st q ids key gem true).1.documents =
        st.documents ++ [(ask embed st q ids key gem true).2.answer] ∧
      (ask embed st q ids key gem true).1.index =
        st.index ++ [embed ((ask embed st q ids key gem true).2.answer)] ∧
      (ask embed st q ids key gem true).1.manual =
        st.manual ++
          '\n' :: ((ask embed st q ids key gem true).2.answer ++ ['\n']) := by
  have hd : st.documents.isEmpty = false := by simpa using hne
  simp only [ask, if_neg (by simp [hd] : ¬st.documents.isEmpty = true)]
  have hret : ∀ x ∈ retrieveDocs st.documents ids, pyStrip x = x ∧ x ≠ [] :=
    fun x hx => hdocs x (mem_of_mem_retrieveDocs st.documents ids x hx)
  obtain ⟨hfix, hanne⟩ :=
    fusedAnswer_good (retrieveDocs st.documents ids) key gem hret
  rcases append_spec embed st
      (fusedAnswer (kbContextOf (retrieveDocs st.documents ids)) key gem) true
    with ⟨hfail, _⟩ | ⟨_, _, heq⟩
  · rcases hfail with hf | hf
    · rw [hfix] at hf
      exact absurd hf hanne
    · exact absurd hf (by simp)
  · rw [heq, hfix]
    exact ⟨rfl, rfl, rfl⟩

/-- Witness for the amended C5: one strip-fixed passage, a successful
generation, a successful write; the returned answer is appended to the
documents list. -/
theorem C5_ask_appends_answer_amended_witness :
    ((["alpha".toList] : List (List Char)) ≠ []) ∧
      (ask emb0 (⟨["alpha".toList], [0], "m".toList, .absent⟩ : KBState Nat)
          "q".toList [0] true (some "The answer.".toList) true).1.documents =
        ["alpha".toList] ++
          [(ask emb0 (⟨["alpha".toList], [0], "m".toList,
            .absent⟩ : KBState Nat) "q".toList [0] true
            (some "The answer.".toList) true).2.answer] :=
  ⟨by decide,
    (C5_ask_appends_answer_amended emb0
      ⟨["alpha".toList], [0], "m".toList, .absent⟩ "q".toList [0] true
      (some "The answer.".toList) (by decide) (by decide)).1⟩

/-! ### Behavior of `/metrics` -/

/-- On a falsy-or-string value, `(x or "")` yields exactly the carried string
(empty for falsy values) without raising. -/
theorem pyStrOrEmpty_jget (kvs : List (List Char × JVal)) (key : List Char)
    (h : strOrFalsy (jget kvs key) = true) :
    pyStrOrEmpty (jget kvs key) = .ok (fieldStr kvs key) := by
  unfold pyStrOrEmpty fieldStr
  by_cases ht : truthy (jget kvs key)
  · rw [if_pos ht]
    unfold strOrFalsy at h
    rw [ht] at h
    simp only [Bool.not_true, Bool.false_or] at h
    cases hv : jget kvs key with
    | jstr s => rfl
    | jnull => rw [hv] at h; simp at h
    | jbool b => rw [hv] at h; simp at h
    | jnum n => rw [hv] at h; simp at h
    | jarr xs => rw [hv] at h; simp at h
    | jobj kvs2 => rw [hv] at h; simp at h
  · rw [if_neg ht]
    cases hv : jget kvs key with
    | jstr s =>
      rw [hv] at ht
      have hs : s = [] := by
        unfold truthy at ht
        simpa using ht
      rw [hs]
      rfl
    | jnull => rfl
    | jbool b => rfl
    | jnum n => rfl
    | jarr xs => rfl
    | jobj kvs2 => rfl

/-- One classification step on a well-formed record: the total always grows
by one; correct and incorrect grow according to the claimed rule. -/
theorem classifyStep_wf (kvs : List (List Char × JVal)) (acc : Nat × Nat × Nat)
    (hfb : strOrFalsy (jget kvs "feedback".toList) = true)
    (hcorr : strOrFalsy (jget kvs "correction".toList) = true) :
    classifyStep acc (.jobj kvs) = .ok (acc.1 + 1,
      acc.2.1 + (if itemCorrect (.jobj kvs) then 1 else 0),
      acc.2.2 + (if itemIncorrect (.jobj kvs) then 1 else 0)) := by
  unfold classifyStep
  simp only [pyStrOrEmpty_jget kvs _ hfb, pyStrOrEmpty_jget kvs _ hcorr,
    except_bind_ok]
  have hcor : itemCorrect (.jobj kvs) =
      recIsCorrect (fieldStr kvs "feedback".toList)
        (fieldStr kvs "correction".toList) := rfl
  have hinc : itemIncorrect (.jobj kvs) =
      recIsIncorrect (fieldStr kvs "feedback".toList)
        (fieldStr kvs "correction".toList) := rfl
  rw [hcor, hinc]
  unfold recIsCorrect recIsIncorrect hasNegB hasPosB
  by_cases h1 : (pyStrip (fieldStr kvs "correction".toList)).isEmpty
  · simp only [h1, Bool.not_true, Bool.false_eq_true, if_false]
    by_cases h2 : negKeywords.any (fun k =>
        pyInStr k (pyLower (fieldStr kvs "feedback".toList)))
    · simp only [h2, if_true]
      rfl
    · simp only [h2, Bool.false_eq_true, if_false]
      by_cases h3 : posKeywords.any (fun k =>
          pyInStr k (pyLower (fieldStr kvs "feedback".toList)))
      · simp only [h3, if_true]
        rfl
      · simp only [h3, Bool.false_eq_true, if_false]
        rfl
  · simp only [h1, Bool.not_false, if_true]
    rfl

/-- The classification fold over a list of well-formed records counts the
records and the claimed correct/incorrect classifications. -/
theorem metrics_fold (items : List JVal) (acc : Nat × Nat × Nat)
    (h : ∀ item ∈ items, wfRecord item = true) :
    items.foldlM classifyStep acc =
      .ok (acc.1 + items.length, acc.2.1 + items.countP itemCorrect,
        acc.2.2 + items.countP itemIncorrect) := by
  induction items generalizing acc with
  | nil =>
    simp only [List.foldlM_nil, List.length_nil, List.countP_nil,
      Nat.add_zero]
    rfl
  | cons item rest ih =>
    have hwf := h item (List.mem_cons_self item rest)
    cases item with
    | jobj kvs =>
      have hpair : strOrFalsy (jget kvs "feedback".toList) = true ∧
          strOrFalsy (jget kvs "correction".toList) = true := by
        unfold wfRecord at hwf
        simpa using hwf
      rw [List.foldlM_cons, classifyStep_wf kvs acc hpair.1 hpair.2,
        except_bind_ok, ih _ (fun x hx => h x (List.mem_cons_of_mem _ hx))]
      simp only [List.countP_cons, List.length_cons, Except.ok.injEq,
        Prod.mk.injEq]
      refine ⟨by omega, by omega, by omega⟩
    | jnull => simp [wfRecord] at hwf
    | jbool b => simp [wfRecord] at hwf
    | jnum n => simp [wfRecord] at hwf
    | jstr s => simp [wfRecord] at hwf
    | jarr xs => simp [wfRecord] at hwf

/-- The three-record log of the specification's metrics scenario: one record
with a correction, one with feedback `"very helpful"`, one with feedback
`"totally wrong"`. -/
def metricsExampleLog : List JVal :=
  [.jobj [("question".toList, .jstr "Q1".toList),
      ("answer".toList, .jstr "A1".toList),
      ("feedback".toList, .jstr "wrong".toList),
      ("correction".toList, .jstr "Correct answer text".toList)],
    .jobj [("question".toList, .jstr "Q2".toList),
      ("answer".toList, .jstr "A2".toList),
      ("feedback".toList, .jstr "very helpful".toList)],
    .jobj [("question".toList, .jstr "Q3".toList),
      ("answer".toList, .jstr "A3".toList),
      ("feedback".toList, .jstr "totally wrong".toList)]]

/-- Claim C8 (functional correctness).  Over any log of well-formed records
(dicts whose `feedback`/`correction` values are strings or falsy), `/metrics`
counts every record in `total` and classifies by the claimed rule: non-empty
trimmed correction means incorrect; otherwise a negative keyword in the
feedback text means incorrect; otherwise a positive keyword means correct;
otherwise the record counts only toward the total; `accuracy` is
`correct/total` for `total > 0` and `0.0` otherwise (float division modelled
as the exact rational).  In particular, on the three-record scenario it
returns `total = 3, correct = 1, incorrect = 2, accuracy = 1/3`. -/
theorem C8_metrics_classification (items : List JVal)
    (h : ∀ item ∈ items, wfRecord item = true) :
    (metrics (.parsed (.jarr items)) =
        .ok ⟨items.length, items.countP itemCorrect,
          items.countP itemIncorrect,
          if items.length > 0 then
            (items.countP itemCorrect : ℚ) / (items.length : ℚ)
          else 0⟩) ∧
      metrics (.parsed (.jarr metricsExampleLog)) =
        .ok ⟨3, 1, 2, (1 : ℚ) / 3⟩ := by
  have hgen : ∀ js : List JVal, (∀ item ∈ js, wfRecord item = true) →
      metrics (.parsed (.jarr js)) =
        .ok ⟨js.length, js.countP itemCorrect, js.countP itemIncorrect,
          if js.length > 0 then
            (js.countP itemCorrect : ℚ) / (js.length : ℚ)
          else 0⟩ := by
    intro js hjs
    unfold metrics
    rw [show readFeedbackItems (.parsed (.jarr js)) = js from rfl,
      metrics_fold js (0, 0, 0) hjs, except_bind_ok]
    simp only [Nat.zero_add]
    rfl
  refine ⟨hgen items h, ?_⟩
  rw [hgen metricsExampleLog (by decide)]
  rw [show metricsExampleLog.countP itemCorrect = 1 from by decide,
    show metricsExampleLog.countP itemIncorrect = 2 from by decide,
    show metricsExampleLog.length = 3 from rfl]
  norm_num

/-- Witness for C8 at the concrete three-record log. -/
theorem C8_metrics_classification_witness :
    (∀ item ∈ metricsExampleLog, wfRecord item = true) ∧
      metrics (.parsed (.jarr metricsExampleLog)) =
        .ok ⟨3, 1, 2, (1 : ℚ) / 3⟩ :=
  ⟨by decide, (C8_metrics_classification metricsExampleLog (by decide)).2⟩

end TechChatbot
